import Mathlib

set_option maxRecDepth 40000

/-!
Verification of the provider-libvirt core: the instance-aware name generator
(`internal/naming`) and the cross-host reference validators
(`internal/webhook/domain`, `internal/webhook/volume`).

Modelling conventions:
* Go strings are modelled as their rune sequences (`List Char` / `String.data`).
  Positional indices (used by the truncation hash) are rune indices, which
  coincide with Go's byte indices on ASCII input; every concrete input used in
  a theorem below is ASCII.
* Go `int` is 64-bit two's complement; it is modelled as `Int` with an explicit
  `wrap64` applied after every arithmetic step that Go performs, so overflow
  behaves exactly as in the source.  Go's `%` on int is truncated remainder,
  modelled by `Int.tmod`.
* `strings.ToLower` is modelled on the ASCII range (A-Z); the regular
  expressions of `sanitizeName` are ASCII-literal, so this is faithful there.
* Errors are modelled as `Except String Unit`, the `String` being the message
  Go builds with `errors.New` / `errors.Errorf`; `errors.Wrap(err, m)` is
  modelled as the message `m ++ ": " ++ err`.  The text a Kubernetes client
  attaches to a not-found `Get` is external to the repository, so the wrapped
  not-found message is modelled as its repository-built prefix only.
* The Kubernetes lookup capability (`client.Get` by object name, `client.List`)
  is modelled as an explicit list of records passed to the validator; the
  lookup itself is assumed to succeed (a transport-level `LookupFailure` is an
  external concern).
-/

namespace ProviderLibvirt

/-! ## Character helpers -/

/-- ASCII lowercasing as performed by `strings.ToLower` on the A-Z range. -/
def goToLower (c : Char) : Char :=
  if 65 ≤ c.toNat ∧ c.toNat ≤ 90 then Char.ofNat (c.toNat + 32) else c

/-- Membership in the class `[a-z0-9-]` used by `sanitizeName`'s regexes. -/
def isNameChar (c : Char) : Bool :=
  (decide (97 ≤ c.toNat) && decide (c.toNat ≤ 122)) ||
  (decide (48 ≤ c.toNat) && decide (c.toNat ≤ 57)) ||
  (decide (c.toNat = 45))

/-! ## sanitizeName (naming package) -/

/-- Stage 2 of `sanitizeName`: `regexp [^a-z0-9-]` replaced by `-`. -/
def replaceInvalid (l : List Char) : List Char :=
  l.map fun c => if isNameChar c then c else '-'

/-- One side of `strings.Trim(name, "-")`: drop a leading run of hyphens. -/
def dropHyphens (l : List Char) : List Char :=
  l.dropWhile fun c => c == '-'

/-- Stage 3 of `sanitizeName`: `strings.Trim(name, "-")` removes the leading
and the trailing run of hyphens. -/
def trimHyphens (l : List Char) : List Char :=
  ((dropHyphens l).reverse.dropWhile fun c => c == '-').reverse

/-- Stage 4 of `sanitizeName`: `regexp -+` replaced by `-`, i.e. every maximal
run of hyphens collapses to a single hyphen. -/
def collapseHyphens : List Char → List Char
  | [] => []
  | [c] => [c]
  | c1 :: c2 :: rest =>
    if c1 == '-' && c2 == '-' then collapseHyphens (c2 :: rest)
    else c1 :: collapseHyphens (c2 :: rest)

/-- The naming package's `sanitizeName` on rune lists: lowercase, replace the
characters outside `[a-z0-9-]` with `-`, trim boundary hyphens, collapse runs
of hyphens (in exactly this order, as in the source). -/
def sanitizeList (l : List Char) : List Char :=
  collapseHyphens (trimHyphens (replaceInvalid (l.map goToLower)))

/-- The naming package's `sanitizeName`. -/
def sanitizeName (s : String) : String :=
  ⟨sanitizeList s.data⟩

/-! ## extractHostname (naming package) -/

/-- The ordered wrapper tokens that `extractHostname` strips from the front. -/
def hostPreTokens : List (List Char) :=
  ["libvirt-".data, "provider-".data, "config-".data]

/-- The ordered wrapper tokens that `extractHostname` strips from the back. -/
def hostSufTokens : List (List Char) :=
  ["-libvirt".data, "-provider".data, "-config".data]

/-- One iteration of the front-stripping loop: `strings.TrimPrefix` guarded by
`strings.HasPrefix` (the loop does not break after a match). -/
def stripPreStep (cur : List Char) (tok : List Char) : List Char :=
  if tok.isPrefixOf cur then cur.drop tok.length else cur

/-- One iteration of the back-stripping loop: `strings.TrimSuffix` guarded by
`strings.HasSuffix`. -/
def stripSufStep (cur : List Char) (tok : List Char) : List Char :=
  if tok.isSuffixOf cur then cur.take (cur.length - tok.length) else cur

/-- The naming package's `extractHostname` on rune lists: lowercase, run the
front-stripping loop over all three tokens, run the back-stripping loop over
all three tokens, then sanitize the remainder. -/
def extractHostList (l : List Char) : List Char :=
  sanitizeList
    (hostSufTokens.foldl stripSufStep
      (hostPreTokens.foldl stripPreStep (l.map goToLower)))

/-- The naming package's `extractHostname`. -/
def extractHostname (s : String) : String :=
  ⟨extractHostList s.data⟩

/-! ## 64-bit integer arithmetic -/

/-- Reduce an integer to the canonical representative of its residue class in
the signed 64-bit range, as Go's `int` arithmetic does on overflow. -/
def wrap64 (x : Int) : Int :=
  (x + 2 ^ 63) % 2 ^ 64 - 2 ^ 63

/-! ## shortHash (naming package) -/

/-- The accumulation step of `shortHash`: `hash = (hash << 5) - hash + int(c)`,
every operation on a 64-bit `int`. -/
def shortHashStep (h : Int) (c : Char) : Int :=
  wrap64 (h * 32 - h + c.toNat)

/-- The integer accumulated by `shortHash` over the runes of the input. -/
def shortHashInt (l : List Char) : Int :=
  l.foldl shortHashStep 0

/-- Lowercase hexadecimal digit, as produced by `fmt.Sprintf("%x", ...)`. -/
def hexDigitChar (d : Nat) : Char :=
  if d < 10 then Char.ofNat (48 + d) else Char.ofNat (87 + d)

/-- Big-endian hexadecimal digits of a natural number (fuel-driven so that the
definition evaluates by kernel reduction; fuel `m + 1` always suffices). -/
def hexDigitsAux : Nat → Nat → List Char
  | _, 0 => []
  | m, fuel + 1 =>
    if m < 16 then [hexDigitChar m]
    else hexDigitsAux (m / 16) fuel ++ [hexDigitChar (m % 16)]

/-- Hexadecimal rendering of a natural number, `"0"` for zero. -/
def natToHex (m : Nat) : List Char :=
  hexDigitsAux m (m + 1)

/-- Rendering of `fmt.Sprintf("%x", h)` for a (possibly negative) `int`:
a minus sign followed by the hexadecimal magnitude when `h < 0`. -/
def goHexInt (h : Int) : List Char :=
  if h < 0 then '-' :: natToHex (-h).toNat else natToHex h.toNat

/-- The naming package's `shortHash`: accumulate, render in hex, keep at most
the first 6 characters. -/
def shortHash (s : String) : String :=
  ⟨(goHexInt (shortHashInt s.data)).take 6⟩

/-! ## truncateName (naming package) -/

/-- Big-endian decimal digits of a natural number (fuel-driven). -/
def decDigitsAux : Nat → Nat → List Char
  | _, 0 => []
  | m, fuel + 1 =>
    if m < 10 then [Char.ofNat (48 + m)]
    else decDigitsAux (m / 10) fuel ++ [Char.ofNat (48 + m % 10)]

/-- Decimal rendering of a natural number, `"0"` for zero. -/
def natToDec (m : Nat) : List Char :=
  decDigitsAux m (m + 1)

/-- Rendering of `fmt.Sprintf("%03d", n)` for an `int`: zero-pad to a total
width of 3, the minus sign of a negative value occupying one column. -/
def goPad3 (n : Int) : List Char :=
  if n < 0 then
    '-' :: (List.replicate (2 - (natToDec (-n).toNat).length) '0' ++ natToDec (-n).toNat)
  else
    List.replicate (3 - (natToDec n.toNat).length) '0' ++ natToDec n.toNat

/-- The accumulation step of `truncateName`'s hash over `(value, position)`:
`hash = hash*31 + int(c) + i` on a 64-bit `int`, position incremented. -/
def truncHashStep (st : Int × Nat) (c : Char) : Int × Nat :=
  (wrap64 (st.1 * 31 + c.toNat + st.2), st.2 + 1)

/-- The position-weighted hash `truncateName` computes over the full name. -/
def truncHash (l : List Char) : Int :=
  (l.foldl truncHashStep (0, 0)).1

/-- Go's `if hash < 0 { hash = -hash }`: 64-bit negation (which wraps on the
minimum value, leaving it negative). -/
def normalizeHash (h : Int) : Int :=
  if h < 0 then wrap64 (-h) else h

/-- The 4-character-budget tag `truncateName` appends: `%03d` of the
normalized position-weighted hash reduced by Go's truncated `% 1000`. -/
def truncTag (l : List Char) : List Char :=
  goPad3 (Int.tmod (normalizeHash (truncHash l)) 1000)

/-- The naming package's `truncateName` on rune lists: names within `maxLen`
pass through; longer names keep their first `maxLen - 4` runes and gain a
`-`-separated tag, the result capped at `maxLen`. -/
def truncateList (l : List Char) (maxLen : Nat) : List Char :=
  if l.length ≤ maxLen then l
  else if maxLen < 5 then l.take maxLen
  else
    let truncateAt := if maxLen - 4 < 1 then 1 else maxLen - 4
    let r := l.take truncateAt ++ '-' :: truncTag l
    if maxLen < r.length then r.take maxLen else r

/-- The naming package's `truncateName`. -/
def truncateName (s : String) (maxLen : Nat) : String :=
  ⟨truncateList s.data maxLen⟩

/-! ## GenerateName (naming package) -/

/-- Strategy `prefix-provider`: sanitize both parts, join with `-`, truncate. -/
def prefixProviderName (libvirtName providerConfig : String) : String :=
  truncateName (sanitizeName providerConfig ++ "-" ++ sanitizeName libvirtName) 63

/-- Strategy `prefix-host`: extracted host plus sanitized name, truncated. -/
def prefixHostName (libvirtName providerConfig : String) : String :=
  truncateName (extractHostname providerConfig ++ "-" ++ sanitizeName libvirtName) 63

/-- Strategy `hash`: sanitized name plus short hash of the config, truncated. -/
def appendHash (libvirtName providerConfig : String) : String :=
  truncateName (sanitizeName libvirtName ++ "-" ++ shortHash providerConfig) 63

/-- The generator's `GenerateName`.  Go's `Strategy` is a string type, so the
generator state is modelled by the strategy string itself; the `switch`
dispatches on the three recognized constants and every other value (including
`"none"`) falls through to the unmodified libvirt name. -/
def GenerateName (strategy libvirtName providerConfig : String) : String :=
  if strategy = "prefix-provider" then prefixProviderName libvirtName providerConfig
  else if strategy = "prefix-host" then prefixHostName libvirtName providerConfig
  else if strategy = "hash" then appendHash libvirtName providerConfig
  else libvirtName

/-! ## Webhook validators -/

/-- The fields of a cloudinit `Disk` record the domain validator reads: its
object name (the key `client.Get` matches) and the name inside its optional
`ProviderConfigReference`. -/
structure CloudinitDisk where
  metaName : String
  providerConfigRef : Option String
deriving DecidableEq

/-- The fields of a `Pool` record the volume validator reads: the optional
backend name `Spec.ForProvider.Name` and the optional provider-config
reference. -/
structure PoolRecord where
  forName : Option String
  providerConfigRef : Option String
deriving DecidableEq

/-- The fields of a `Volume` the volume validator reads. -/
structure VolumeRecord where
  providerConfigRef : Option String
  pool : Option String
  baseVolumeID : Option String
deriving DecidableEq

/-- The fields of a `Domain` the domain validator reads.  `cloudinitRef` is
`some name` when `Spec.ForProvider.CloudinitRef` is non-nil. -/
structure DomainRecord where
  providerConfigRef : Option String
  cloudinitRef : Option String
deriving DecidableEq

/-- Go's nil-guarded read `if ref != nil { name = ref.Name }` starting from
the empty string. -/
def ownerOf (ref : Option String) : String :=
  ref.getD ""

/-- The `client.Get` by object name used by `validateCloudinitRef`, over the
modelled store of cloudinit disk records. -/
def lookupDisk (store : List CloudinitDisk) (name : String) : Option CloudinitDisk :=
  store.find? fun d => d.metaName == name

/-- The message `validateCloudinitRef` builds on a provider-config mismatch. -/
def cloudinitMismatchMsg (name discOwner domOwner : String) : String :=
  "cloudinit disk " ++ name ++ " uses providerConfig " ++ discOwner ++
    ", but domain uses providerConfig " ++ domOwner ++
    ". Resources must use the same libvirt instance"

/-- The domain webhook's `validateCloudinitRef`: reject an empty name, fail
when the `Get` fails (a missing record makes the `Get` fail), and otherwise
fail exactly when the disk's provider config differs from the domain's. -/
def validateCloudinitRef (store : List CloudinitDisk)
    (cloudinitName expectedProviderConfig : String) : Except String Unit :=
  if cloudinitName = "" then .error "cloudinit reference name cannot be empty"
  else
    match lookupDisk store cloudinitName with
    | none => .error ("failed to get cloudinit disk " ++ cloudinitName)
    | some d =>
      if ownerOf d.providerConfigRef ≠ expectedProviderConfig then
        .error (cloudinitMismatchMsg cloudinitName (ownerOf d.providerConfigRef)
          expectedProviderConfig)
      else .ok ()

/-- The domain webhook's `validateDomain`: require a provider config, then
check the cloudinit reference when present (wrapping its error); the loop over
disk entries only formats a string and never affects the verdict, so it is a
no-op here. -/
def validateDomain (store : List CloudinitDisk) (d : DomainRecord) :
    Except String Unit :=
  let providerConfigName := ownerOf d.providerConfigRef
  if providerConfigName = "" then .error "domain must have a providerConfigRef"
  else
    match d.cloudinitRef with
    | none => .ok ()
    | some name =>
      match validateCloudinitRef store name providerConfigName with
      | .error e => .error ("invalid cloudinit reference: " ++ e)
      | .ok _ => .ok ()

/-- The message `validatePoolRef` builds on a provider-config mismatch. -/
def poolMismatchMsg (name poolOwner volOwner : String) : String :=
  "pool " ++ name ++ " uses providerConfig " ++ poolOwner ++
    ", but volume uses providerConfig " ++ volOwner ++
    ". Resources must use the same libvirt instance"

/-- The loop body of `validatePoolRef` over the listed pools: the first record
whose backend name equals the referenced name decides the verdict (mismatched
owner fails, matching owner returns nil immediately); a missing pool is not an
error. -/
def poolRefLoop (pools : List PoolRecord) (poolName expected : String) :
    Except String Unit :=
  match pools with
  | [] => .ok ()
  | r :: rest =>
    if r.forName = some poolName then
      if ownerOf r.providerConfigRef ≠ expected then
        .error (poolMismatchMsg poolName (ownerOf r.providerConfigRef) expected)
      else .ok ()
    else poolRefLoop rest poolName expected

/-- The volume webhook's `validatePoolRef`: reject an empty name, then run the
scan over the listed pools. -/
def validatePoolRef (pools : List PoolRecord) (poolName expected : String) :
    Except String Unit :=
  if poolName = "" then .error "pool reference name cannot be empty"
  else poolRefLoop pools poolName expected

/-- The volume webhook's `validateVolume`: require a provider config; check
the pool reference only when it is present AND non-empty (wrapping its error);
the base-volume field never affects the verdict. -/
def validateVolume (pools : List PoolRecord) (v : VolumeRecord) :
    Except String Unit :=
  let providerConfigName := ownerOf v.providerConfigRef
  if providerConfigName = "" then .error "volume must have a providerConfigRef"
  else
    match v.pool with
    | none => .ok ()
    | some p =>
      if p ≠ "" then
        match validatePoolRef pools p providerConfigName with
        | .error e => .error ("invalid pool reference: " ++ e)
        | .ok _ => .ok ()
      else .ok ()

/-- Whether a validator verdict is a failure. -/
def isError (r : Except String Unit) : Bool :=
  match r with
  | .error _ => true
  | .ok _ => false

/-- Whether a rune list is free of adjacent hyphen pairs (the shape
`collapseHyphens` establishes). -/
def noDouble : List Char → Bool
  | [] => true
  | [_] => true
  | c1 :: c2 :: rest => !(c1 == '-' && c2 == '-') && noDouble (c2 :: rest)

/-! ## Spec-side definitions

These do not model the source; they transcribe the spec's words so that a
claim can be compared against the code-derived definitions above. -/

/-- Modelled from the spec: the pattern `[a-z0-9]([a-z0-9-]\x7b0,61\x7d[a-z0-9])?`
anchored at both ends — a nonempty string of at most 63 characters from
`[a-z0-9-]` whose first and last characters are alphanumeric. -/
def matchesRecordIdShape (s : String) : Bool :=
  match s.data with
  | [] => false
  | c :: rest =>
    (isNameChar c && !(c == '-')) &&
    (match (c :: rest).getLast? with
     | none => false
     | some lastC => isNameChar lastC && !(lastC == '-')) &&
    (c :: rest).all isNameChar && s.data.length ≤ 63

/-- Modelled from the spec: hostname extraction that strips at most ONE
recognized front token (the first that matches, applied a single time) and at
most ONE recognized back token, then sanitizes — the single-application
reading of the claim, to be compared against `extractHostList`. -/
def extractHostOnceList (l : List Char) : List Char :=
  let lower := l.map goToLower
  let afterPre :=
    match hostPreTokens.find? (fun tok => tok.isPrefixOf lower) with
    | some tok => lower.drop tok.length
    | none => lower
  let afterSuf :=
    match hostSufTokens.find? (fun tok => tok.isSuffixOf afterPre) with
    | some tok => afterPre.take (afterPre.length - tok.length)
    | none => afterPre
  sanitizeList afterSuf

/-- Modelled from the spec: `extractHost` on strings, single-strip reading. -/
def extractHostOnce (s : String) : String :=
  ⟨extractHostOnceList s.data⟩

/-- Modelled from the spec: the truncation tag as the claim states it — the
position-weighted hash of the whole input, sign-normalized to a non-negative
value, reduced modulo 1000, zero-padded to exactly three digits. -/
def specTruncTag (l : List Char) : List Char :=
  goPad3 ((truncHash l).natAbs % 1000)

/-- Decimal digit test (`0`-`9`), used to state the truncation-tag shape. -/
def isDigitChar (c : Char) : Bool :=
  decide (48 ≤ c.toNat) && decide (c.toNat ≤ 57)

/-- Character test for the alphabet `fmt.Sprintf("%x", ...)` emits on an
`int`: a lowercase hexadecimal digit or a minus sign. -/
def isHexOrMinus (c : Char) : Bool :=
  (decide (48 ≤ c.toNat) && decide (c.toNat ≤ 57)) ||
  (decide (97 ≤ c.toNat) && decide (c.toNat ≤ 102)) ||
  (decide (c.toNat = 45))

/-! ## Concrete instances used by witnesses and counterexamples -/

/-- A backend name longer than 63 characters (68 characters). -/
def longName : String :=
  "very-long-vm-name-that-exceeds-kubernetes-limits-for-resource-names"

/-- A 77-character ASCII string (64 `a` runes followed by 13 control runes)
whose position-weighted `truncateName` hash accumulates to exactly the
minimum 64-bit integer, so Go's `hash = -hash` sign normalization overflows
and leaves the hash negative. -/
def minIntInput : String :=
  ⟨List.replicate 64 'a' ++
    [Char.ofNat 21, Char.ofNat 1, Char.ofNat 23, Char.ofNat 9, Char.ofNat 26,
     Char.ofNat 26, Char.ofNat 29, Char.ofNat 5, Char.ofNat 12, Char.ofNat 1,
     Char.ofNat 29, Char.ofNat 18, Char.ofNat 10]⟩

/-- Two pool records that share the backend name `p` but belong to different
provider configs. -/
def twinPools : List PoolRecord :=
  [⟨some "p", some "host-a"⟩, ⟨some "p", some "host-b"⟩]

/-- A volume on `host-a` whose pool reference field is present but empty. -/
def emptyRefVolume : VolumeRecord :=
  ⟨some "host-a", some "", none⟩

/-- A volume on `host-a` referencing pool `p`. -/
def sampleVolume : VolumeRecord :=
  ⟨some "host-a", some "p", none⟩

/-- A cloudinit disk named `boot-1` owned by `host-b`. -/
def bootDiskB : CloudinitDisk :=
  ⟨"boot-1", some "host-b"⟩

/-- A domain on `host-a` referencing cloudinit disk `boot-1`. -/
def domainA : DomainRecord :=
  ⟨some "host-a", some "boot-1"⟩

/-! ## Lemmas about sanitizeName -/

lemma isNameChar_hyphen : isNameChar '-' = true := by decide

lemma goToLower_eq_self_of_isNameChar {c : Char} (h : isNameChar c = true) :
    goToLower c = c := by
  unfold isNameChar at h
  simp only [Bool.or_eq_true, Bool.and_eq_true, decide_eq_true_eq] at h
  unfold goToLower
  rw [if_neg]
  omega

lemma mem_replaceInvalid {l : List Char} {c : Char} (h : c ∈ replaceInvalid l) :
    isNameChar c = true := by
  unfold replaceInvalid at h
  obtain ⟨a, _, rfl⟩ := List.mem_map.mp h
  by_cases ha : isNameChar a = true
  · simp [ha]
  · simp only [Bool.not_eq_true] at ha
    simp [ha, isNameChar_hyphen]

lemma replaceInvalid_eq_self {l : List Char} (h : ∀ c ∈ l, isNameChar c = true) :
    replaceInvalid l = l := by
  unfold replaceInvalid
  have : l.map (fun c => if isNameChar c then c else '-') = l.map id :=
    List.map_congr_left fun c hc => by simp [h c hc]
  rw [this, List.map_id]

lemma map_goToLower_eq_self {l : List Char} (h : ∀ c ∈ l, isNameChar c = true) :
    l.map goToLower = l := by
  have : l.map goToLower = l.map id :=
    List.map_congr_left fun c hc => goToLower_eq_self_of_isNameChar (h c hc)
  rw [this, List.map_id]

lemma head?_dropHyphens {l : List Char} {c : Char}
    (h : (dropHyphens l).head? = some c) : c ≠ '-' := by
  induction l with
  | nil => simp [dropHyphens] at h
  | cons a t ih =>
    unfold dropHyphens at h ih
    rw [List.dropWhile_cons] at h
    by_cases ha : (a == '-') = true
    · rw [if_pos ha] at h
      exact ih h
    · rw [if_neg ha] at h
      simp only [List.head?_cons, Option.some.injEq] at h
      subst h
      simpa using ha

lemma dropHyphens_eq_self {l : List Char} (h : l.head? ≠ some '-') :
    dropHyphens l = l := by
  cases l with
  | nil => rfl
  | cons a t =>
    simp only [List.head?_cons, ne_eq, Option.some.injEq] at h
    unfold dropHyphens
    rw [List.dropWhile_cons, if_neg (by simpa using h)]

lemma trimHyphens_front (l : List Char) : trimHyphens l <+: dropHyphens l := by
  unfold trimHyphens
  have h1 : List.dropWhile (fun c => c == '-') (dropHyphens l).reverse <:+
      (dropHyphens l).reverse := List.dropWhile_suffix _
  have h2 := List.reverse_prefix.mpr h1
  simpa using h2

lemma prefix_head? {m n : List Char} (h : m <+: n) (hm : m ≠ []) :
    m.head? = n.head? := by
  obtain ⟨t, rfl⟩ := h
  cases m with
  | nil => exact absurd rfl hm
  | cons a m' => simp

lemma head?_trimHyphens (l : List Char) : (trimHyphens l).head? ≠ some '-' := by
  by_cases hm : trimHyphens l = []
  · simp [hm]
  · rw [prefix_head? (trimHyphens_front l) hm]
    intro hc
    exact head?_dropHyphens hc rfl

lemma getLast?_trimHyphens (l : List Char) :
    (trimHyphens l).getLast? ≠ some '-' := by
  unfold trimHyphens
  rw [← List.head?_reverse, List.reverse_reverse]
  intro hc
  exact head?_dropHyphens hc rfl

lemma trimHyphens_subset {l : List Char} {c : Char} (h : c ∈ trimHyphens l) :
    c ∈ l := by
  unfold trimHyphens at h
  rw [List.mem_reverse] at h
  have hs1 : List.Sublist (List.dropWhile (fun c => c == '-') (dropHyphens l).reverse)
      (dropHyphens l).reverse := List.dropWhile_sublist _
  have h1 := hs1.subset h
  rw [List.mem_reverse] at h1
  have hs2 : List.Sublist (List.dropWhile (fun c => c == '-') l) l :=
    List.dropWhile_sublist _
  exact hs2.subset h1

lemma trimHyphens_eq_self {l : List Char} (h1 : l.head? ≠ some '-')
    (h2 : l.getLast? ≠ some '-') : trimHyphens l = l := by
  unfold trimHyphens
  rw [show dropHyphens l = l from dropHyphens_eq_self h1]
  have : List.dropWhile (fun c => c == '-') l.reverse = l.reverse := by
    have := dropHyphens_eq_self
      (show l.reverse.head? ≠ some '-' by rwa [List.head?_reverse])
    simpa [dropHyphens] using this
  rw [this, List.reverse_reverse]

lemma collapseHyphens_subset {l : List Char} {c : Char}
    (h : c ∈ collapseHyphens l) : c ∈ l := by
  induction l using collapseHyphens.induct with
  | case1 => simp [collapseHyphens] at h
  | case2 d => simpa [collapseHyphens] using h
  | case3 c1 c2 rest hcond ih =>
    rw [collapseHyphens, if_pos hcond] at h
    exact List.mem_cons_of_mem _ (ih h)
  | case4 c1 c2 rest hcond ih =>
    rw [collapseHyphens, if_neg hcond] at h
    rcases List.mem_cons.mp h with rfl | h'
    · exact List.mem_cons_self _ _
    · exact List.mem_cons_of_mem _ (ih h')

lemma collapseHyphens_ne_nil {l : List Char} (h : l ≠ []) :
    collapseHyphens l ≠ [] := by
  induction l using collapseHyphens.induct with
  | case1 => exact absurd rfl h
  | case2 d => simp [collapseHyphens]
  | case3 c1 c2 rest hcond ih =>
    rw [collapseHyphens, if_pos hcond]
    exact ih (by simp)
  | case4 c1 c2 rest hcond ih =>
    rw [collapseHyphens, if_neg hcond]
    simp

lemma head?_collapseHyphens_cons {c : Char} {t : List Char} (h : c ≠ '-') :
    (collapseHyphens (c :: t)).head? = some c := by
  cases t with
  | nil => rfl
  | cons c2 rest =>
    rw [collapseHyphens, if_neg (by simp [h])]
    simp

lemma getLast?_collapseHyphens (l : List Char) :
    (collapseHyphens l).getLast? = l.getLast? := by
  induction l using collapseHyphens.induct with
  | case1 => rfl
  | case2 d => rfl
  | case3 c1 c2 rest hcond ih =>
    rw [collapseHyphens, if_pos hcond, ih, List.getLast?_cons_cons]
  | case4 c1 c2 rest hcond ih =>
    rw [collapseHyphens, if_neg hcond]
    obtain ⟨d, L', hL⟩ :=
      List.exists_cons_of_ne_nil
        (collapseHyphens_ne_nil (show c2 :: rest ≠ [] by simp))
    rw [hL, List.getLast?_cons_cons, ← hL, ih, List.getLast?_cons_cons]

lemma noDouble_collapseHyphens (l : List Char) :
    noDouble (collapseHyphens l) = true := by
  induction l using collapseHyphens.induct with
  | case1 => rfl
  | case2 d => rfl
  | case3 c1 c2 rest hcond ih =>
    rw [collapseHyphens, if_pos hcond]
    exact ih
  | case4 c1 c2 rest hcond ih =>
    rw [collapseHyphens, if_neg hcond]
    obtain ⟨d, L', hL⟩ :=
      List.exists_cons_of_ne_nil
        (collapseHyphens_ne_nil (show c2 :: rest ≠ [] by simp))
    rw [hL]
    rw [hL] at ih
    unfold noDouble
    rw [ih, Bool.and_true]
    by_cases hc1 : c1 = '-'
    · subst hc1
      have hc2 : c2 ≠ '-' := by
        intro hc
        exact hcond (by simp [hc])
      have hd : d = c2 := by
        have : (collapseHyphens (c2 :: rest)).head? = some c2 :=
          head?_collapseHyphens_cons hc2
        rw [hL] at this
        simpa using this
      subst hd
      simp [hc2]
    · simp [hc1]

lemma collapseHyphens_eq_self {l : List Char} (h : noDouble l = true) :
    collapseHyphens l = l := by
  induction l using collapseHyphens.induct with
  | case1 => rfl
  | case2 d => rfl
  | case3 c1 c2 rest hcond ih =>
    unfold noDouble at h
    rw [hcond] at h
    simp at h
  | case4 c1 c2 rest hcond ih =>
    unfold noDouble at h
    simp only [Bool.and_eq_true] at h
    rw [collapseHyphens, if_neg hcond, ih h.2]

lemma head?_collapseHyphens (l : List Char) (h : l.head? ≠ some '-') :
    (collapseHyphens l).head? ≠ some '-' := by
  cases l with
  | nil => simp [collapseHyphens]
  | cons a t =>
    simp only [List.head?_cons, ne_eq, Option.some.injEq] at h
    rw [head?_collapseHyphens_cons h]
    simpa using h

/-- Shape of every `sanitizeName` output: characters in `[a-z0-9-]`, no
boundary hyphen, no adjacent hyphen pair. -/
lemma sanitizeList_shape (l : List Char) :
    (∀ c ∈ sanitizeList l, isNameChar c = true) ∧
      (sanitizeList l).head? ≠ some '-' ∧
      (sanitizeList l).getLast? ≠ some '-' ∧
      noDouble (sanitizeList l) = true := by
  unfold sanitizeList
  refine ⟨?_, ?_, ?_, ?_⟩
  · intro c hc
    exact mem_replaceInvalid (trimHyphens_subset (collapseHyphens_subset hc))
  · exact head?_collapseHyphens _ (head?_trimHyphens _)
  · rw [getLast?_collapseHyphens]
    exact getLast?_trimHyphens _
  · exact noDouble_collapseHyphens _

/-- A list already in `sanitizeName` output shape passes through unchanged. -/
lemma sanitizeList_eq_self {l : List Char}
    (hmem : ∀ c ∈ l, isNameChar c = true) (hhead : l.head? ≠ some '-')
    (hlast : l.getLast? ≠ some '-') (hnd : noDouble l = true) :
    sanitizeList l = l := by
  unfold sanitizeList
  rw [map_goToLower_eq_self hmem, replaceInvalid_eq_self hmem,
    trimHyphens_eq_self hhead hlast, collapseHyphens_eq_self hnd]

/-- sanitizeList is idempotent. -/
lemma sanitizeList_idem (l : List Char) :
    sanitizeList (sanitizeList l) = sanitizeList l := by
  obtain ⟨h1, h2, h3, h4⟩ := sanitizeList_shape l
  exact sanitizeList_eq_self h1 h2 h3 h4

/-! ## Helper lemmas about strings and the validators -/

lemma str_infix {a b c w : String} (hw : w = a ++ b ++ c) : b.data <:+: w.data := by
  subst hw
  exact ⟨a.data, c.data, by simp [String.data_append]⟩

lemma filter_singleton_find? {α : Type} (p : α → Bool) (l : List α) (r : α)
    (h : l.filter p = [r]) : l.find? p = some r := by
  induction l with
  | nil => simp at h
  | cons a t ih =>
    by_cases pa : p a = true
    · rw [List.filter_cons_of_pos pa] at h
      obtain ⟨rfl, -⟩ := List.cons_eq_cons.mp h
      exact List.find?_cons_of_pos _ pa
    · rw [List.filter_cons_of_neg (by simpa using pa)] at h
      rw [List.find?_cons_of_neg _ (by simpa using pa)]
      exact ih h

lemma poolRefLoop_eq_find? (pools : List PoolRecord) (name exp : String) :
    poolRefLoop pools name exp =
      match pools.find? (fun r => r.forName == some name) with
      | none => Except.ok ()
      | some r =>
        if ownerOf r.providerConfigRef ≠ exp then
          Except.error (poolMismatchMsg name (ownerOf r.providerConfigRef) exp)
        else Except.ok () := by
  induction pools with
  | nil => rfl
  | cons r rest ih =>
    by_cases h : r.forName = some name
    · rw [poolRefLoop, if_pos h, List.find?_cons_of_pos _ (by simpa using h)]
    · rw [poolRefLoop, if_neg h, List.find?_cons_of_neg _ (by simpa using h)]
      exact ih

lemma appended_msg_contains (w b1 b2 b3 b4 n c e : String) :
    n.data <:+: (w ++ (b1 ++ n ++ b2 ++ c ++ b3 ++ e ++ b4)).data ∧
    c.data <:+: (w ++ (b1 ++ n ++ b2 ++ c ++ b3 ++ e ++ b4)).data ∧
    e.data <:+: (w ++ (b1 ++ n ++ b2 ++ c ++ b3 ++ e ++ b4)).data := by
  refine
    ⟨⟨w.data ++ b1.data, b2.data ++ c.data ++ b3.data ++ e.data ++ b4.data, ?_⟩,
     ⟨w.data ++ b1.data ++ n.data ++ b2.data, b3.data ++ e.data ++ b4.data, ?_⟩,
     ⟨w.data ++ b1.data ++ n.data ++ b2.data ++ c.data ++ b3.data, b4.data, ?_⟩⟩ <;>
    simp [String.data_append]

/-! ## Claim theorems -/

/-- C1: for a Domain whose cloudinit reference resolves to an existing disk
record, and for a Volume whose pool reference matches exactly one pool record
by backend name, validation fails if and only if the referenced record's
provider config differs from the referencing resource's, and the failure
message contains both provider-config names and the referent name. -/
theorem c1_cross_host_iff :
    (∀ (store : List CloudinitDisk) (d : DomainRecord) (name : String)
        (r : CloudinitDisk),
      ownerOf d.providerConfigRef ≠ "" →
      d.cloudinitRef = some name → name ≠ "" →
      lookupDisk store name = some r →
      (isError (validateDomain store d) = true ↔
        ownerOf r.providerConfigRef ≠ ownerOf d.providerConfigRef) ∧
      (∀ msg, validateDomain store d = .error msg →
        (ownerOf r.providerConfigRef).data <:+: msg.data ∧
        (ownerOf d.providerConfigRef).data <:+: msg.data ∧
        name.data <:+: msg.data)) ∧
    (∀ (pools : List PoolRecord) (v : VolumeRecord) (p : String) (r : PoolRecord),
      ownerOf v.providerConfigRef ≠ "" →
      v.pool = some p → p ≠ "" →
      pools.filter (fun q => q.forName == some p) = [r] →
      (isError (validateVolume pools v) = true ↔
        ownerOf r.providerConfigRef ≠ ownerOf v.providerConfigRef) ∧
      (∀ msg, validateVolume pools v = .error msg →
        (ownerOf r.providerConfigRef).data <:+: msg.data ∧
        (ownerOf v.providerConfigRef).data <:+: msg.data ∧
        p.data <:+: msg.data)) := by
  constructor
  · intro store d name r hpc hci hname hfind
    unfold validateDomain validateCloudinitRef
    dsimp only
    rw [if_neg hpc, hci]
    dsimp only
    rw [if_neg hname, hfind]
    dsimp only
    by_cases hmm : ownerOf r.providerConfigRef = ownerOf d.providerConfigRef
    · rw [if_neg (by simpa using hmm)]
      exact ⟨by simpa [isError] using hmm, fun msg h => Except.noConfusion h⟩
    · rw [if_pos hmm]
      refine ⟨by simpa [isError] using hmm, ?_⟩
      intro msg h
      injection h with h'
      subst h'
      obtain ⟨h1, h2, h3⟩ := appended_msg_contains "invalid cloudinit reference: "
        "cloudinit disk " " uses providerConfig "
        ", but domain uses providerConfig "
        ". Resources must use the same libvirt instance" name
        (ownerOf r.providerConfigRef) (ownerOf d.providerConfigRef)
      exact ⟨h2, h3, h1⟩
  · intro pools v p r hpc hpool hp hfilter
    have hfind := filter_singleton_find? _ _ _ hfilter
    unfold validateVolume validatePoolRef
    dsimp only
    rw [if_neg hpc, hpool]
    dsimp only
    rw [if_pos hp, if_neg hp, poolRefLoop_eq_find?, hfind]
    dsimp only
    by_cases hmm : ownerOf r.providerConfigRef = ownerOf v.providerConfigRef
    · rw [if_neg (by simpa using hmm)]
      exact ⟨by simpa [isError] using hmm, fun msg h => Except.noConfusion h⟩
    · rw [if_pos hmm]
      refine ⟨by simpa [isError] using hmm, ?_⟩
      intro msg h
      injection h with h'
      subst h'
      obtain ⟨h1, h2, h3⟩ := appended_msg_contains "invalid pool reference: "
        "pool " " uses providerConfig "
        ", but volume uses providerConfig "
        ". Resources must use the same libvirt instance" p
        (ownerOf r.providerConfigRef) (ownerOf v.providerConfigRef)
      exact ⟨h2, h3, h1⟩

/-- Witness for C1: a domain on `host-a` referencing the cloudinit disk
`boot-1` owned by `host-b` is rejected. -/
theorem c1_cross_host_iff_witness :
    isError (validateDomain [bootDiskB] domainA) = true :=
  ((c1_cross_host_iff.1 [bootDiskB] domainA "boot-1" bootDiskB (by decide) rfl
    (by decide) (by decide)).1).mpr (by decide)

/-- C2 counterexample: a non-empty cloudinit reference that the lookup does
not resolve makes validation FAIL (the `Get` error is returned), contradicting
the claim that a dangling boot-disk reference is not an error. -/
theorem c2_dangling_counterexample :
    lookupDisk [] "boot-1" = none ∧
    isError (validateCloudinitRef [] "boot-1" "host-a") = true ∧
    isError (validateDomain [] domainA) = true := by
  decide

/-- C2 amended: a Domain carrying a non-empty boot-disk (cloudinit) reference
whose lookup finds no record fails validation with the wrapped lookup error
`failed to get cloudinit disk <name>`; only the volume validator's POOL lookup
is dangling-tolerant. -/
theorem c2_dangling_cloudinit_fails :
    (∀ (store : List CloudinitDisk) (name expected : String),
      name ≠ "" → lookupDisk store name = none →
      validateCloudinitRef store name expected =
        .error ("failed to get cloudinit disk " ++ name)) ∧
    (∀ (store : List CloudinitDisk) (d : DomainRecord) (name : String),
      ownerOf d.providerConfigRef ≠ "" →
      d.cloudinitRef = some name → name ≠ "" →
      lookupDisk store name = none →
      validateDomain store d =
        .error ("invalid cloudinit reference: failed to get cloudinit disk " ++ name)) := by
  constructor
  · intro store name expected hname hfind
    unfold validateCloudinitRef
    rw [if_neg hname, hfind]
  · intro store d name hpc hci hname hfind
    unfold validateDomain validateCloudinitRef
    dsimp only
    rw [if_neg hpc, hci]
    dsimp only
    rw [if_neg hname, hfind]
    dsimp only
    rw [← String.append_assoc]
    rfl

/-- Witness for C2 amended: the concrete dangling reference of the
counterexample produces exactly the wrapped lookup-failure message. -/
theorem c2_dangling_cloudinit_fails_witness :
    validateDomain [] domainA =
      .error ("invalid cloudinit reference: failed to get cloudinit disk " ++ "boot-1") :=
  c2_dangling_cloudinit_fails.2 [] domainA "boot-1" (by decide) rfl (by decide) (by decide)

/-- C4 counterexample: a volume with a non-empty owner whose pool reference is
present (non-nil) but empty passes validation — `validateVolume` guards the
call with `*Pool != ""`, so the `EmptyReferenceName` branch of
`validatePoolRef` is never reached from it. -/
theorem c4_empty_poolref_counterexample :
    emptyRefVolume.pool = some "" ∧
    ownerOf emptyRefVolume.providerConfigRef ≠ "" ∧
    validateVolume twinPools emptyRefVolume = .ok () := by
  refine ⟨rfl, by decide, ?_⟩
  rfl

/-- C4 amended: `validateVolume` silently skips a present-but-empty pool
reference (validation succeeds); the distinct `EmptyReferenceName` failure
(`pool reference name cannot be empty`) exists only in `validatePoolRef` and
fires only when that function is invoked directly with an empty name. -/
theorem c4_empty_poolref_skipped :
    (∀ (pools : List PoolRecord) (owner : String) (base : Option String),
      owner ≠ "" →
      validateVolume pools ⟨some owner, some "", base⟩ = .ok ()) ∧
    (∀ (pools : List PoolRecord) (expected : String),
      validatePoolRef pools "" expected =
        .error "pool reference name cannot be empty") := by
  constructor
  · intro pools owner base howner
    unfold validateVolume
    dsimp only
    rw [if_neg (by simpa [ownerOf] using howner)]
    simp
  · intro pools expected
    unfold validatePoolRef
    rw [if_pos rfl]

/-- Witness for C4 amended: both parts at concrete inputs. -/
theorem c4_empty_poolref_skipped_witness :
    validateVolume twinPools ⟨some "host-a", some "", none⟩ = .ok () ∧
    validatePoolRef twinPools "" "host-a" =
      .error "pool reference name cannot be empty" :=
  ⟨c4_empty_poolref_skipped.1 twinPools "host-a" none (by decide),
   c4_empty_poolref_skipped.2 twinPools "host-a"⟩

/-- C5 counterexample: two pool records share the backend name `p`; the first
is owned by `host-a` (matching the volume) and the second by `host-b`.  The
claim demands failure because a matching-name candidate declares a different
owner, but validation succeeds: the scan stops at the first matching-name
record. -/
theorem c5_first_match_counterexample :
    (∃ r ∈ twinPools, r.forName = some "p" ∧
      ownerOf r.providerConfigRef ≠ ownerOf sampleVolume.providerConfigRef) ∧
    validateVolume twinPools sampleVolume = .ok () ∧
    validatePoolRef twinPools "p" "host-a" = .ok () := by
  refine ⟨⟨⟨some "p", some "host-b"⟩, by decide, by decide, by decide⟩, by rfl, by rfl⟩

/-- C5 amended: the scan decides at the FIRST record (in list order) whose
backend name matches the referenced name — failing exactly when that record's
owner differs — and never examines later candidates; when no record matches,
validation succeeds. -/
theorem c5_first_match_decides (pools : List PoolRecord) (name expected : String)
    (hname : name ≠ "") :
    validatePoolRef pools name expected =
      match pools.find? (fun r => r.forName == some name) with
      | none => Except.ok ()
      | some r =>
        if ownerOf r.providerConfigRef ≠ expected then
          Except.error (poolMismatchMsg name (ownerOf r.providerConfigRef) expected)
        else Except.ok () := by
  unfold validatePoolRef
  rw [if_neg hname]
  exact poolRefLoop_eq_find? pools name expected

/-- Witness for C5 amended: on the twin-pool store the first matching record
(owned by `host-a`) decides, so validation succeeds for a `host-a` volume. -/
theorem c5_first_match_decides_witness :
    validatePoolRef twinPools "p" "host-a" =
      match twinPools.find? (fun r => r.forName == some "p") with
      | none => Except.ok ()
      | some r =>
        if ownerOf r.providerConfigRef ≠ "host-a" then
          Except.error (poolMismatchMsg "p" (ownerOf r.providerConfigRef) "host-a")
        else Except.ok () :=
  c5_first_match_decides twinPools "p" "host-a" (by decide)

/-! ## Lemmas about digit rendering, hashing and truncation -/

lemma isNameChar_decDigit {m : Nat} (h : m < 10) :
    isNameChar (Char.ofNat (48 + m)) = true := by
  interval_cases m <;> decide

lemma isDigitChar_decDigit {m : Nat} (h : m < 10) :
    isDigitChar (Char.ofNat (48 + m)) = true := by
  interval_cases m <;> decide

lemma isNameChar_hexDigit {d : Nat} (h : d < 16) :
    isNameChar (hexDigitChar d) = true := by
  interval_cases d <;> decide

lemma isHexOrMinus_hexDigit {d : Nat} (h : d < 16) :
    isHexOrMinus (hexDigitChar d) = true := by
  interval_cases d <;> decide

lemma isNameChar_of_isHexOrMinus {c : Char} (h : isHexOrMinus c = true) :
    isNameChar c = true := by
  unfold isHexOrMinus at h
  unfold isNameChar
  simp only [Bool.or_eq_true, Bool.and_eq_true, decide_eq_true_eq] at h ⊢
  omega

lemma mem_decDigitsAux {fuel m : Nat} {c : Char} (h : c ∈ decDigitsAux m fuel) :
    isDigitChar c = true := by
  induction fuel generalizing m with
  | zero => simp [decDigitsAux] at h
  | succ fuel ih =>
    rw [decDigitsAux] at h
    by_cases hm : m < 10
    · rw [if_pos hm] at h
      simp only [List.mem_singleton] at h
      subst h
      exact isDigitChar_decDigit hm
    · rw [if_neg hm] at h
      rcases List.mem_append.mp h with h' | h'
      · exact ih h'
      · simp only [List.mem_singleton] at h'
        subst h'
        exact isDigitChar_decDigit (Nat.mod_lt _ (by norm_num))

lemma isNameChar_of_isDigitChar {c : Char} (h : isDigitChar c = true) :
    isNameChar c = true := by
  unfold isDigitChar at h
  unfold isNameChar
  simp only [Bool.and_eq_true, Bool.or_eq_true, decide_eq_true_eq] at h ⊢
  omega

lemma mem_hexDigitsAux {fuel m : Nat} {c : Char} (h : c ∈ hexDigitsAux m fuel) :
    isHexOrMinus c = true := by
  induction fuel generalizing m with
  | zero => simp [hexDigitsAux] at h
  | succ fuel ih =>
    rw [hexDigitsAux] at h
    by_cases hm : m < 16
    · rw [if_pos hm] at h
      simp only [List.mem_singleton] at h
      subst h
      exact isHexOrMinus_hexDigit hm
    · rw [if_neg hm] at h
      rcases List.mem_append.mp h with h' | h'
      · exact ih h'
      · simp only [List.mem_singleton] at h'
        subst h'
        exact isHexOrMinus_hexDigit (Nat.mod_lt _ (by norm_num))

lemma decDigitsAux_ne_nil {fuel m : Nat} (h : 0 < fuel) :
    decDigitsAux m fuel ≠ [] := by
  cases fuel with
  | zero => omega
  | succ fuel =>
    rw [decDigitsAux]
    by_cases hm : m < 10
    · rw [if_pos hm]; simp
    · rw [if_neg hm]; simp

lemma decDigitsAux_length_le (fuel m k : Nat) (hfuel : m < fuel)
    (hk : m < 10 ^ (k + 1)) : (decDigitsAux m fuel).length ≤ k + 1 := by
  induction fuel generalizing m k with
  | zero => omega
  | succ fuel ih =>
    rw [decDigitsAux]
    by_cases hm : m < 10
    · rw [if_pos hm]
      simp
    · rw [if_neg hm]
      have hk1 : 1 ≤ k := by
        by_contra hc
        have : k = 0 := by omega
        subst this
        simp at hk
        omega
      have hdiv : m / 10 < m := Nat.div_lt_self (by omega) (by norm_num)
      have hdivk : m / 10 < 10 ^ ((k - 1) + 1) := by
        rw [Nat.div_lt_iff_lt_mul (by norm_num)]
        calc m < 10 ^ (k + 1) := hk
        _ = 10 ^ ((k - 1) + 1) * 10 := by
          rw [← pow_succ]
          congr 1
          omega
      have := ih (m / 10) (k - 1) (by omega) hdivk
      simp only [List.length_append, List.length_singleton]
      omega

lemma goPad3_nonneg_shape {n : Int} (h0 : 0 ≤ n) (h1 : n < 1000) :
    (goPad3 n).length = 3 ∧ ∀ c ∈ goPad3 n, isDigitChar c = true := by
  unfold goPad3
  rw [if_neg (by omega)]
  have hlt : n.toNat < 1000 := by omega
  have hlen : (natToDec n.toNat).length ≤ 3 := by
    have := decDigitsAux_length_le (n.toNat + 1) n.toNat 2
      (by omega) (by norm_num; omega)
    simpa [natToDec] using this
  constructor
  · simp only [List.length_append, List.length_replicate]
    omega
  · intro c hc
    rcases List.mem_append.mp hc with h' | h'
    · rw [List.eq_of_mem_replicate h']
      decide
    · exact mem_decDigitsAux (by simpa [natToDec] using h')

lemma mem_goPad3 {n : Int} {c : Char} (h : c ∈ goPad3 n) :
    isNameChar c = true := by
  unfold goPad3 at h
  by_cases hn : n < 0
  · rw [if_pos hn] at h
    rcases List.mem_cons.mp h with rfl | h'
    · decide
    · rcases List.mem_append.mp h' with h'' | h''
      · rw [List.eq_of_mem_replicate h'']
        decide
      · exact isNameChar_of_isDigitChar (mem_decDigitsAux (by simpa [natToDec] using h''))
  · rw [if_neg hn] at h
    rcases List.mem_append.mp h with h'' | h''
    · rw [List.eq_of_mem_replicate h'']
      decide
    · exact isNameChar_of_isDigitChar (mem_decDigitsAux (by simpa [natToDec] using h''))

lemma wrap64_range (x : Int) : -2 ^ 63 ≤ wrap64 x ∧ wrap64 x < 2 ^ 63 := by
  unfold wrap64
  have h1 : 0 ≤ (x + 2 ^ 63) % 2 ^ 64 := Int.emod_nonneg _ (by norm_num)
  have h2 : (x + 2 ^ 63) % 2 ^ 64 < 2 ^ 64 := Int.emod_lt_of_pos _ (by norm_num)
  constructor <;> [omega; omega]

lemma wrap64_eq_self {x : Int} (h1 : -2 ^ 63 ≤ x) (h2 : x < 2 ^ 63) :
    wrap64 x = x := by
  unfold wrap64
  rw [Int.emod_eq_of_lt (by omega) (by omega)]
  omega

lemma truncHash_range (l : List Char) :
    -2 ^ 63 ≤ truncHash l ∧ truncHash l < 2 ^ 63 := by
  suffices h : ∀ st : Int × Nat, -2 ^ 63 ≤ st.1 → st.1 < 2 ^ 63 →
      -2 ^ 63 ≤ (l.foldl truncHashStep st).1 ∧ (l.foldl truncHashStep st).1 < 2 ^ 63 by
    exact h (0, 0) (by norm_num) (by norm_num)
  induction l with
  | nil => intro st h1 h2; exact ⟨h1, h2⟩
  | cons c t ih =>
    intro st h1 h2
    rw [List.foldl_cons]
    exact ih _ (wrap64_range _).1 (wrap64_range _).2

lemma mem_truncTag {l : List Char} {c : Char} (h : c ∈ truncTag l) :
    isNameChar c = true :=
  mem_goPad3 h

lemma truncateList_length_le (l : List Char) (n : Nat) :
    (truncateList l n).length ≤ n := by
  unfold truncateList
  by_cases h1 : l.length ≤ n
  · rw [if_pos h1]
    exact h1
  · rw [if_neg h1]
    by_cases h2 : n < 5
    · rw [if_pos h2]
      simp [List.length_take]
    · rw [if_neg h2]
      dsimp only
      by_cases h3 : n < (l.take (if n - 4 < 1 then 1 else n - 4) ++ '-' :: truncTag l).length
      · rw [if_pos h3]
        simp [List.length_take]
      · rw [if_neg h3]
        omega

lemma mem_truncateList {l : List Char} {n : Nat} {c : Char}
    (hl : ∀ c ∈ l, isNameChar c = true) (h : c ∈ truncateList l n) :
    isNameChar c = true := by
  unfold truncateList at h
  by_cases h1 : l.length ≤ n
  · rw [if_pos h1] at h
    exact hl c h
  · rw [if_neg h1] at h
    by_cases h2 : n < 5
    · rw [if_pos h2] at h
      exact hl c (List.take_subset _ _ h)
    · rw [if_neg h2] at h
      dsimp only at h
      set r := l.take (if n - 4 < 1 then 1 else n - 4) ++ '-' :: truncTag l with hr
      have hmem : c ∈ r := by
        by_cases h3 : n < r.length
        · rw [if_pos h3] at h
          exact List.take_subset _ _ h
        · rwa [if_neg h3] at h
      rw [hr] at hmem
      rcases List.mem_append.mp hmem with h' | h'
      · exact hl c (List.take_subset _ _ h')
      · rcases List.mem_cons.mp h' with rfl | h''
        · decide
        · exact mem_truncTag h''

lemma toNat_ofNat_of_valid {n : Nat} (h : n.isValidChar) :
    (Char.ofNat n).toNat = n := by
  simp [Char.ofNat, Char.toNat, h, Char.ofNatAux]
  rfl

lemma goToLower_idem (c : Char) : goToLower (goToLower c) = goToLower c := by
  unfold goToLower
  by_cases h : 65 ≤ c.toNat ∧ c.toNat ≤ 90
  · rw [if_pos h, if_neg]
    rw [toNat_ofNat_of_valid (Or.inl (by omega))]
    omega
  · rw [if_neg h, if_neg h]

lemma sanitizeName_chars (s : String) :
    ∀ c ∈ (sanitizeName s).data, isNameChar c = true :=
  (sanitizeList_shape s.data).1

lemma extractHostname_chars (s : String) :
    ∀ c ∈ (extractHostname s).data, isNameChar c = true := by
  unfold extractHostname
  have h : (String.mk (extractHostList s.data)).data = extractHostList s.data := by
    with_reducible rfl
  rw [h, extractHostList]
  exact (sanitizeList_shape _).1

lemma shortHash_chars {s : String} {c : Char} (h : c ∈ (shortHash s).data) :
    isHexOrMinus c = true := by
  have h' : c ∈ goHexInt (shortHashInt s.data) :=
    List.take_subset _ _ (show c ∈ (goHexInt (shortHashInt s.data)).take 6 from h)
  unfold goHexInt at h'
  by_cases hn : shortHashInt s.data < 0
  · rw [if_pos hn] at h'
    rcases List.mem_cons.mp h' with rfl | h''
    · decide
    · exact mem_hexDigitsAux (show _ ∈ hexDigitsAux _ _ from h'')
  · rw [if_neg hn] at h'
    exact mem_hexDigitsAux (show _ ∈ hexDigitsAux _ _ from h')

lemma truncated_join_chars {x y : String}
    (hx : ∀ c ∈ x.data, isNameChar c = true)
    (hy : ∀ c ∈ y.data, isNameChar c = true) :
    ∀ c ∈ (truncateName (x ++ "-" ++ y) 63).data, isNameChar c = true := by
  intro c hc
  refine mem_truncateList ?_ (show c ∈ truncateList (x ++ "-" ++ y).data 63 from hc)
  intro d hd
  rw [String.data_append, String.data_append] at hd
  rcases List.mem_append.mp hd with hd' | hd'
  · rcases List.mem_append.mp hd' with h1 | h1
    · exact hx d h1
    · have : d = '-' := by simpa using h1
      subst this
      decide
  · exact hy d hd'

/-! ## Claim theorems about the name generator -/

/-- C8: `sanitizeName` is idempotent, and the two concrete values from the
spec hold: `My_VM@2024 ↦ my-vm-2024` and `--vm-name-- ↦ vm-name`. -/
theorem c8_sanitize_idempotent :
    (∀ s : String, sanitizeName (sanitizeName s) = sanitizeName s) ∧
    sanitizeName "My_VM@2024" = "my-vm-2024" ∧
    sanitizeName "--vm-name--" = "vm-name" := by
  refine ⟨fun s => ?_, by decide, by decide⟩
  unfold sanitizeName
  exact congrArg String.mk (sanitizeList_idem s.data)

/-- C10: for any strategy string other than the three recognized constants —
including `none` and arbitrary unrecognized values — `GenerateName` returns
the libvirt name completely unchanged, independent of the provider config. -/
theorem c10_default_strategy_identity (strategy libvirtName providerConfig : String)
    (h1 : strategy ≠ "prefix-provider") (h2 : strategy ≠ "prefix-host")
    (h3 : strategy ≠ "hash") :
    GenerateName strategy libvirtName providerConfig = libvirtName := by
  unfold GenerateName
  rw [if_neg h1, if_neg h2, if_neg h3]

/-- Witness for C10: the `none` strategy passes an unsanitized mixed-case
name through untouched. -/
theorem c10_default_strategy_identity_witness :
    GenerateName "none" "My_VM@2024" "libvirt-host1" = "My_VM@2024" :=
  c10_default_strategy_identity "none" "My_VM@2024" "libvirt-host1"
    (by decide) (by decide) (by decide)

/-- C3 counterexample: under the `none` strategy (which the claim includes by
quantifying over every strategy) the generator echoes the input, so the output
can violate the pattern while being non-empty on non-empty input, and can
exceed 63 characters. -/
theorem c3_shape_counterexample :
    GenerateName "none" "ABC" "libvirt-host1" = "ABC" ∧
    matchesRecordIdShape "ABC" = false ∧
    ("ABC" : String) ≠ "" ∧
    GenerateName "none" longName "libvirt-host1" = longName ∧
    ¬ (GenerateName "none" longName "libvirt-host1").length ≤ 63 := by
  exact ⟨rfl, by decide, by decide, rfl, by decide⟩

/-- C3 amended: under the three strategies that do generate (prefix-provider,
prefix-host, hash) the output length is always at most 63 and every output
character lies in `[a-z0-9-]`; the full anchored pattern is not guaranteed (a
leading hyphen arises when the first component sanitizes to empty, e.g.
`GenerateName "prefix-provider" "my-vm" "@@@" = "-my-vm"`), and the `none`
and unrecognized strategies echo the input unchanged. -/
theorem c3_bounded_charset :
    (∀ n pc : String, (GenerateName "prefix-provider" n pc).length ≤ 63 ∧
      ∀ c ∈ (GenerateName "prefix-provider" n pc).data, isNameChar c = true) ∧
    (∀ n pc : String, (GenerateName "prefix-host" n pc).length ≤ 63 ∧
      ∀ c ∈ (GenerateName "prefix-host" n pc).data, isNameChar c = true) ∧
    (∀ n pc : String, (GenerateName "hash" n pc).length ≤ 63 ∧
      ∀ c ∈ (GenerateName "hash" n pc).data, isNameChar c = true) ∧
    GenerateName "prefix-provider" "my-vm" "@@@" = "-my-vm" := by
  refine ⟨fun n pc => ⟨?_, ?_⟩, fun n pc => ⟨?_, ?_⟩, fun n pc => ⟨?_, ?_⟩, by decide⟩
  · exact truncateList_length_le _ 63
  · exact truncated_join_chars (sanitizeName_chars pc) (sanitizeName_chars n)
  · exact truncateList_length_le _ 63
  · exact truncated_join_chars (extractHostname_chars pc) (sanitizeName_chars n)
  · exact truncateList_length_le _ 63
  · exact truncated_join_chars (sanitizeName_chars n)
      (fun c hc => isNameChar_of_isHexOrMinus (shortHash_chars hc))

lemma map_goToLower_idem (l : List Char) :
    (l.map goToLower).map goToLower = l.map goToLower := by
  rw [List.map_map]
  exact List.map_congr_left fun c _ => goToLower_idem c

lemma sanitizeList_map_goToLower (l : List Char) :
    sanitizeList (l.map goToLower) = sanitizeList l := by
  unfold sanitizeList
  rw [map_goToLower_idem]

lemma foldl_stripPre_no_match (toks : List (List Char)) (cur : List Char)
    (h : ∀ tok ∈ toks, ¬ tok.isPrefixOf cur = true) :
    toks.foldl stripPreStep cur = cur := by
  induction toks with
  | nil => rfl
  | cons t ts ih =>
    rw [List.foldl_cons, stripPreStep, if_neg (h t (by simp))]
    exact ih fun tok htok => h tok (by simp [htok])

lemma foldl_stripSuf_no_match (toks : List (List Char)) (cur : List Char)
    (h : ∀ tok ∈ toks, ¬ tok.isSuffixOf cur = true) :
    toks.foldl stripSufStep cur = cur := by
  induction toks with
  | nil => rfl
  | cons t ts ih =>
    rw [List.foldl_cons, stripSufStep, if_neg (h t (by simp))]
    exact ih fun tok htok => h tok (by simp [htok])

/-- C6 counterexample: the stripping loops continue after a match, so a later
recognized token strips from the already-stripped string.  On
`libvirt-provider-a` the code strips `libvirt-` and then also `provider-`,
yielding `a`, while the claim's single-application reading (transcribed from
the spec as `extractHostOnce`) yields `provider-a`. -/
theorem c6_single_strip_counterexample :
    extractHostname "libvirt-provider-a" = "a" ∧
    extractHostOnce "libvirt-provider-a" = "provider-a" ∧
    extractHostname "libvirt-provider-a" ≠ extractHostOnce "libvirt-provider-a" := by
  exact ⟨by decide, by decide, by decide⟩

/-- C6 amended: `extractHostname` tries each front token of the ordered set in
turn against the running string, stripping each at most once (so several
distinct tokens can strip in sequence), then likewise each back token, then
sanitizes; when no token matches the lowered input the result is the sanitized
input, and the function is total, including on empty and all-separator
inputs. -/
theorem c6_sequential_strip :
    (∀ s : String,
      (∀ tok ∈ hostPreTokens, ¬ tok.isPrefixOf (s.data.map goToLower) = true) →
      (∀ tok ∈ hostSufTokens, ¬ tok.isSuffixOf (s.data.map goToLower) = true) →
      extractHostname s = sanitizeName s) ∧
    extractHostname "libvirt-provider-a" = "a" ∧
    extractHostname "" = "" ∧
    extractHostname "---" = "" ∧
    extractHostname "-libvirt" = "" := by
  refine ⟨fun s hpre hsuf => ?_, by decide, by decide, by decide, by decide⟩
  unfold extractHostname extractHostList sanitizeName
  rw [foldl_stripPre_no_match _ _ hpre, foldl_stripSuf_no_match _ _ hsuf,
    sanitizeList_map_goToLower]

/-- Witness for C6 amended: a config name matching no wrapper token passes
through modulo sanitization. -/
theorem c6_sequential_strip_witness :
    extractHostname "custom-name" = sanitizeName "custom-name" :=
  c6_sequential_strip.1 "custom-name" (by decide) (by decide)

/-- C9 counterexample: `shortHash` renders the accumulator in hex and keeps AT
MOST 6 characters; short inputs give fewer than 6 (`shortHash "a" = "61"`), so
the digest is not always exactly 6 hexadecimal characters. -/
theorem c9_six_hex_counterexample :
    shortHash "a" = "61" ∧ ¬ (shortHash "a").length = 6 := by
  exact ⟨by decide, by decide⟩

/-- C9 amended: `shortHash` (a pure, hence deterministic, function) produces
at most 6 characters, each a lowercase hexadecimal digit or a minus sign (the
sign appears when the 64-bit accumulator is negative), and under the `hash`
strategy the record identifier is exactly
`truncate63(sanitize(backendName) ++ "-" ++ shortHash(ownerID))`. -/
theorem c9_shorthash_bounded :
    (∀ s : String, (shortHash s).length ≤ 6 ∧
      ∀ c ∈ (shortHash s).data, isHexOrMinus c = true) ∧
    (∀ n pc : String, GenerateName "hash" n pc =
      truncateName (sanitizeName n ++ "-" ++ shortHash pc) 63) := by
  refine ⟨fun s => ⟨?_, fun c hc => shortHash_chars hc⟩, fun n pc => rfl⟩
  have h : (shortHash s).length = ((goHexInt (shortHashInt s.data)).take 6).length := rfl
  rw [h]
  simp [List.length_take]

lemma mk_data (l : List Char) : (String.mk l).data = l := rfl

lemma mk_length (l : List Char) : (String.mk l).length = l.length := rfl

lemma tmod_thousand_coe (k : Nat) :
    ((k : Int)).tmod 1000 = ((k % 1000 : Nat) : Int) := by
  rw [Int.tmod_eq_emod (by positivity) (by norm_num)]
  push_cast
  rfl

/-- C7 counterexample: on `minIntInput` the position-weighted hash is exactly
the minimum 64-bit integer, Go's `hash = -hash` overflows back to the same
negative value, `hash % 1000` is `-808`, and `%03d` renders the 4-character
`-808`; after the final cap the output ends in `--80` instead of the
3-digit zero-padded tag the claim demands (which would be `808`). -/
theorem c7_minint_counterexample :
    63 < minIntInput.length ∧
    truncHash minIntInput.data = -(2 ^ 63) ∧
    truncateName minIntInput 63 = ⟨List.replicate 59 'a' ++ "--80".data⟩ ∧
    specTruncTag minIntInput.data = "808".data ∧
    truncateName minIntInput 63 ≠
      ⟨minIntInput.data.take 59 ++ '-' :: specTruncTag minIntInput.data⟩ := by
  exact ⟨by decide, by decide, by decide, by decide, by decide⟩

/-- C7 amended: truncation is the identity up to length 63; beyond that the
result is the first 59 runes, a hyphen, and the `%03d` rendering of the
normalized position-weighted hash of the whole input modulo 1000, the whole
capped at 63 runes.  Whenever the sign normalization actually yields a
non-negative value — every input except those whose 64-bit hash is exactly
the minimum integer — the cap is a no-op and the tag is exactly the 3-digit
zero-padded decimal of |hash| mod 1000, as the claim states.  The function is
pure, so determinism is inherent. -/
theorem c7_truncation_form (s : String) :
    (s.length ≤ 63 → truncateName s 63 = s) ∧
    (63 < s.length →
      truncateName s 63 = ⟨(s.data.take 59 ++ '-' :: truncTag s.data).take 63⟩ ∧
      (0 ≤ normalizeHash (truncHash s.data) →
        truncateName s 63 = ⟨s.data.take 59 ++ '-' :: truncTag s.data⟩ ∧
        (truncateName s 63).length = 63 ∧
        (truncTag s.data).length = 3 ∧
        (∀ c ∈ truncTag s.data, isDigitChar c = true) ∧
        truncTag s.data = specTruncTag s.data)) := by
  constructor
  · intro h
    have h' : s.data.length ≤ 63 := h
    unfold truncateName truncateList
    rw [if_pos h']
  · intro h
    have h' : ¬ s.data.length ≤ 63 := by
      have : 63 < s.data.length := h
      omega
    have hform : truncateName s 63 =
        ⟨(s.data.take 59 ++ '-' :: truncTag s.data).take 63⟩ := by
      unfold truncateName truncateList
      rw [if_neg h', if_neg (by norm_num : ¬ (63 : Nat) < 5)]
      dsimp only
      rw [show (if 63 - 4 < 1 then 1 else 63 - 4 : Nat) = 59 from by norm_num]
      by_cases hr : 63 < (s.data.take 59 ++ '-' :: truncTag s.data).length
      · rw [if_pos hr]
      · have hid : (s.data.take 59 ++ '-' :: truncTag s.data).take 63 =
            s.data.take 59 ++ '-' :: truncTag s.data :=
          List.take_of_length_le (by omega)
        rw [if_neg hr, hid]
    refine ⟨hform, fun hnn => ?_⟩
    have ht0 : 0 ≤ Int.tmod (normalizeHash (truncHash s.data)) 1000 :=
      Int.tmod_nonneg _ hnn
    have ht1 : Int.tmod (normalizeHash (truncHash s.data)) 1000 < 1000 :=
      Int.tmod_lt_of_pos _ (by norm_num)
    obtain ⟨hlen3, hdig⟩ := goPad3_nonneg_shape ht0 ht1
    have htag : truncTag s.data =
        goPad3 (Int.tmod (normalizeHash (truncHash s.data)) 1000) := rfl
    have htag3 : (truncTag s.data).length = 3 := by rw [htag]; exact hlen3
    have h59 : (s.data.take 59).length = 59 := by
      rw [List.length_take, Nat.min_eq_left (by have : 63 < s.data.length := h; omega)]
    have hrlen : (s.data.take 59 ++ '-' :: truncTag s.data).length = 63 := by
      rw [List.length_append, List.length_cons, h59, htag3]
    have hfin : truncateName s 63 = ⟨s.data.take 59 ++ '-' :: truncTag s.data⟩ := by
      have hid : (s.data.take 59 ++ '-' :: truncTag s.data).take 63 =
          s.data.take 59 ++ '-' :: truncTag s.data :=
        List.take_of_length_le (by omega)
      rw [hform, hid]
    refine ⟨hfin, ?_, htag3, fun c hc => hdig c (by rwa [htag] at hc), ?_⟩
    · rw [hfin, mk_length, hrlen]
    · rw [htag, specTruncTag]
      congr 1
      by_cases hneg : truncHash s.data < 0
      · have hrange := truncHash_range s.data
        have hne : truncHash s.data ≠ -2 ^ 63 := by
          intro hmin
          rw [normalizeHash, if_pos hneg, hmin] at hnn
          norm_num [wrap64] at hnn
        have hwr : normalizeHash (truncHash s.data) = -(truncHash s.data) := by
          rw [normalizeHash, if_pos hneg, wrap64_eq_self (by omega) (by omega)]
        rw [hwr]
        have habs : -(truncHash s.data) = ((truncHash s.data).natAbs : Int) := by
          omega
        rw [habs, Int.tmod_eq_emod (by positivity) (by norm_num)]
      · have hwr : normalizeHash (truncHash s.data) = truncHash s.data := by
          rw [normalizeHash, if_neg hneg]
        rw [hwr]
        have habs : truncHash s.data = ((truncHash s.data).natAbs : Int) := by
          omega
        nth_rewrite 1 [habs]
        rw [Int.tmod_eq_emod (by positivity) (by norm_num)]

/-- Witness for C7 amended: a concrete 68-character input takes the
non-degenerate branch and produces the 59-rune head plus hyphen plus tag. -/
theorem c7_truncation_form_witness :
    63 < longName.length ∧
    truncateName longName 63 =
      ⟨longName.data.take 59 ++ '-' :: truncTag longName.data⟩ ∧
    (truncTag longName.data).length = 3 :=
  ⟨by decide,
   (((c7_truncation_form longName).2 (by decide)).2 (by decide)).1,
   (((c7_truncation_form longName).2 (by decide)).2 (by decide)).2.2.1⟩

/-- Witness for C3 amended: a concrete generation stays within the bounds. -/
theorem c3_bounded_charset_witness :
    (GenerateName "prefix-provider" "My_VM@2024" "libvirt.host1").length ≤ 63 :=
  (c3_bounded_charset.1 "My_VM@2024" "libvirt.host1").1

/-- Witness for C9 amended: a concrete digest respects the length bound. -/
theorem c9_shorthash_bounded_witness :
    (shortHash "libvirt-host1").length ≤ 6 :=
  (c9_shorthash_bounded.1 "libvirt-host1").1

/-! ## Model validation against the repository's Go unit tests

Each equation below reproduces an expected value from `naming_test.go`,
checking that the embedding matches the source behavior the tests pin down. -/

example : sanitizeName "valid-name-123" = "valid-name-123" := by decide
example : sanitizeName "MyVirtualMachine" = "myvirtualmachine" := by decide
example : sanitizeName "vm@prod#2024!" = "vm-prod-2024" := by decide
example : sanitizeName "vm_name_with_underscores" = "vm-name-with-underscores" := by decide
example : sanitizeName "vm.prod.example.com" = "vm-prod-example-com" := by decide
example : extractHostname "libvirt-host1" = "host1" := by decide
example : extractHostname "host1-libvirt" = "host1" := by decide
example : extractHostname "provider-prod-01" = "prod-01" := by decide
example : extractHostname "libvirt-us-east-1a-provider" = "us-east-1a" := by decide
example : extractHostname "custom-name" = "custom-name" := by decide
example : GenerateName "none" "my-vm" "libvirt-host1" = "my-vm" := by decide
example : GenerateName "prefix-provider" "my-vm" "libvirt-host1" = "libvirt-host1-my-vm" := by
  decide
example : GenerateName "prefix-host" "my-vm" "libvirt-host1" = "host1-my-vm" := by decide
example : GenerateName "prefix-host" "database" "provider-prod-01-libvirt" = "prod-01-database" := by
  decide
example : GenerateName "prefix-provider" "My_VM@2024" "libvirt.host1" = "libvirt-host1-my-vm-2024" := by
  decide
example :
    GenerateName "prefix-provider" "vm---with---many---hyphens" "libvirt--host1" =
      "libvirt-host1-vm-with-many-hyphens" := by
  decide
example :
    GenerateName "prefix-provider" longName "libvirt-host1" =
      "libvirt-host1-very-long-vm-name-that-exceeds-kubernetes-lim-218" := by
  decide

end ProviderLibvirt
